import Mathlib

/-!
Verification of the custom-domain management scripts
(`manage-domain.py`, `verify-dns.py`, `config.py`).

The Python source is shallowly embedded: pure helpers become Lean
functions; filesystem / process / DNS effects are passed in explicitly
as oracle records, and each CLI flow returns a structured outcome
(exit code, effect trace) instead of performing I/O.
-/

namespace CustomDomain

/-! ### Character classes of the domain regex

`manage-domain.py` line 90:
`DOMAIN_RE = ^[A-Za-z0-9]([A-Za-z0-9-]{0,61}[A-Za-z0-9])?(\.[A-Za-z0-9]([A-Za-z0-9-]{0,61}[A-Za-z0-9])?)*$`
checked with `re.match` (Python semantics: anchored at the start; `$`
matches at the end of the string or just before a newline that ends it).
-/

def isAlnumAscii (c : Char) : Bool :=
  (('A' ≤ c && c ≤ 'Z') || ('a' ≤ c && c ≤ 'z') || ('0' ≤ c && c ≤ '9'))

def isLabelChar (c : Char) : Bool :=
  isAlnumAscii c || c = '-'

/-! The regex engine specialised to `DOMAIN_RE`, written as a scanner over
the character list.  `scanLabel n b cs` is the state "inside a label of
which `n` characters are already consumed, the last consumed character
being alphanumeric iff `b`"; `scanStart cs` is the state "a new label
must start here".  The `'\n'` branch embeds Python's rule that `$` also
matches just before a final newline. -/

mutual

def scanLabel (n : Nat) (b : Bool) : List Char → Bool
  | [] => b
  | c :: rest =>
    if c = '.' then b && scanStart rest
    else if isLabelChar c then decide (n < 63) && scanLabel (n + 1) (isAlnumAscii c) rest
    else if c = '\n' then rest.isEmpty && b
    else false

def scanStart : List Char → Bool
  | [] => false
  | c :: rest => isAlnumAscii c && scanLabel 1 true rest

end

/-- `validate_domain` of `manage-domain.py` (lines 92–96): true iff
`re.match(DOMAIN_RE, domain)` succeeds. -/
def validate_domain (s : String) : Bool :=
  scanStart s.data

/-! ### The hostname grammar as the spec words it

"matches the grammar `label(.label)*` where each label is 1–63
characters of alphanumerics and internal hyphens, no leading/trailing
hyphen".  This definition follows the spec's words, to be compared with
`validate_domain` above. -/

/-- Split a character list on `'.'` separators (empty parts kept). -/
def splitDots : List Char → List (List Char)
  | [] => [[]]
  | c :: rest =>
    if c = '.' then [] :: splitDots rest
    else (splitDots rest).modifyHead (fun g => c :: g)

/-- A single hostname label per the spec: 1–63 characters, each
alphanumeric or a hyphen, first and last alphanumeric. -/
def specLabel (l : List Char) : Bool :=
  !l.isEmpty && decide (l.length ≤ 63) && l.all isLabelChar &&
  (match l.head? with
   | some c => isAlnumAscii c
   | none => false) &&
  (match l.getLast? with
   | some c => isAlnumAscii c
   | none => false)

/-- The hostname grammar `label(.label)*` from the spec. -/
def hostnameGrammar (cs : List Char) : Bool :=
  (splitDots cs).all specLabel

/-- Whether the last consumed character of a label prefix is alphanumeric. -/
def alnumLast (l : List Char) : Bool :=
  match l.getLast? with
  | some c => isAlnumAscii c
  | none => false

/-- Whether the string ends with a newline (the position where Python's
`$` may also match). -/
def endsNL (l : List Char) : Bool :=
  match l.getLast? with
  | some c => decide (c = '\n')
  | none => false

/-- The grammar on `cs` with `pre` prepended to its first label. -/
def hostWith (pre cs : List Char) : Bool :=
  ((splitDots cs).modifyHead (fun g => pre ++ g)).all specLabel

theorem splitDots_ne_nil (cs : List Char) : splitDots cs ≠ [] := by
  induction cs with
  | nil => simp [splitDots]
  | cons c rest ih =>
    simp only [splitDots]
    by_cases hc : c = '.'
    · simp [hc]
    · simp only [hc, if_false]
      cases h : splitDots rest with
      | nil => exact absurd h ih
      | cons g gs => simp [List.modifyHead]

theorem splitDots_exists (cs : List Char) :
    ∃ g gs, splitDots cs = g :: gs := by
  cases h : splitDots cs with
  | nil => exact absurd h (splitDots_ne_nil cs)
  | cons g gs => exact ⟨g, gs, rfl⟩

theorem hostWith_nil (pre : List Char) : hostWith pre [] = specLabel pre := by
  simp [hostWith, splitDots, List.modifyHead]

theorem hostWith_dot (pre cs : List Char) :
    hostWith pre ('.' :: cs) = (specLabel pre && hostnameGrammar cs) := by
  simp [hostWith, splitDots, List.modifyHead, hostnameGrammar]

theorem hostWith_cons (pre cs : List Char) (c : Char) (hc : ¬ c = '.') :
    hostWith pre (c :: cs) = hostWith (pre ++ [c]) cs := by
  obtain ⟨g, gs, h⟩ := splitDots_exists cs
  simp [hostWith, splitDots, hc, h, List.modifyHead]

theorem hostnameGrammar_cons (cs : List Char) (c : Char) (hc : ¬ c = '.') :
    hostnameGrammar (c :: cs) = hostWith [c] cs := by
  obtain ⟨g, gs, h⟩ := splitDots_exists cs
  simp [hostnameGrammar, hostWith, splitDots, hc, h, List.modifyHead]

theorem hostnameGrammar_dot (cs : List Char) :
    hostnameGrammar ('.' :: cs) = false := by
  simp [hostnameGrammar, splitDots, specLabel]

theorem hostnameGrammar_nil : hostnameGrammar [] = false := by
  simp [hostnameGrammar, splitDots, specLabel]

theorem specLabel_good (c0 : Char) (p : List Char)
    (h1 : isAlnumAscii c0 = true) (h2 : (c0 :: p).all isLabelChar = true)
    (h3 : (c0 :: p).length ≤ 63) :
    specLabel (c0 :: p) = alnumLast (c0 :: p) := by
  have hne : (c0 :: p) ≠ [] := by simp
  obtain ⟨l, hl⟩ := List.getLast?_isSome.mpr hne |> Option.isSome_iff_exists.mp
  simp only [specLabel, alnumLast, hl, List.head?_cons, h1, h2,
    List.isEmpty_cons, Bool.not_false, Bool.and_true, Bool.true_and,
    decide_eq_true_eq, h3, decide_True]

theorem specLabel_len_false (l : List Char) (h : ¬ l.length ≤ 63) :
    specLabel l = false := by
  simp [specLabel, h]

theorem specLabel_badchar (l : List Char) (c : Char)
    (hmem : c ∈ l) (hc : isLabelChar c = false) :
    specLabel l = false := by
  have hall : l.all isLabelChar = false := by
    rw [List.all_eq_false]; exact ⟨c, hmem, by simp [hc]⟩
  simp [specLabel, hall]

theorem specLabel_headNotAlnum (p : List Char) (c0 : Char)
    (hc : isAlnumAscii c0 = false) :
    specLabel (c0 :: p) = false := by
  simp [specLabel, hc]

theorem hostWith_long (pre cs : List Char) (h : 63 < pre.length) :
    hostWith pre cs = false := by
  obtain ⟨g, gs, hg⟩ := splitDots_exists cs
  have hlen : specLabel (pre ++ g) = false := by
    apply specLabel_len_false
    simp only [List.length_append]; omega
  simp [hostWith, hg, List.modifyHead, hlen]

theorem hostWith_badchar (pre cs : List Char) (c : Char)
    (hmem : c ∈ pre) (hc : isLabelChar c = false) :
    hostWith pre cs = false := by
  obtain ⟨g, gs, hg⟩ := splitDots_exists cs
  have hsl : specLabel (pre ++ g) = false :=
    specLabel_badchar _ c (List.mem_append_left g hmem) hc
  simp [hostWith, hg, List.modifyHead, hsl]

theorem hostWith_headNotAlnum (p cs : List Char) (c0 : Char)
    (hc : isAlnumAscii c0 = false) :
    hostWith (c0 :: p) cs = false := by
  obtain ⟨g, gs, hg⟩ := splitDots_exists cs
  have hsl : specLabel (c0 :: (p ++ g)) = false := specLabel_headNotAlnum _ _ hc
  simp [hostWith, hg, List.modifyHead, hsl]

theorem scanLabel_nil (n : Nat) (b : Bool) : scanLabel n b [] = b := rfl

theorem scanLabel_dot (n : Nat) (b : Bool) (rest : List Char) :
    scanLabel n b ('.' :: rest) = (b && scanStart rest) := by
  simp [scanLabel]

theorem scanLabel_labelchar (n : Nat) (b : Bool) (c : Char) (rest : List Char)
    (h1 : ¬ c = '.') (h2 : isLabelChar c = true) :
    scanLabel n b (c :: rest)
      = (decide (n < 63) && scanLabel (n + 1) (isAlnumAscii c) rest) := by
  simp [scanLabel, h1, h2]

theorem scanLabel_nl (n : Nat) (b : Bool) (rest : List Char) :
    scanLabel n b ('\n' :: rest) = (rest.isEmpty && b) := by
  simp [scanLabel, show isLabelChar '\n' = false from rfl]

theorem scanLabel_other (n : Nat) (b : Bool) (c : Char) (rest : List Char)
    (h1 : ¬ c = '.') (h2 : isLabelChar c = false) (h3 : ¬ c = '\n') :
    scanLabel n b (c :: rest) = false := by
  simp [scanLabel, h1, h2, h3]

theorem scanStart_nil : scanStart [] = false := rfl

theorem scanStart_cons (c : Char) (rest : List Char) :
    scanStart (c :: rest) = (isAlnumAscii c && scanLabel 1 true rest) := by
  simp [scanStart]

theorem endsNL_nil : endsNL [] = false := rfl

theorem endsNL_single (c : Char) : endsNL [c] = decide (c = '\n') := rfl

theorem endsNL_cons_cons (a b : Char) (l : List Char) :
    endsNL (a :: b :: l) = endsNL (b :: l) := by
  simp [endsNL, List.getLast?_cons_cons]

theorem alnumLast_single (c : Char) : alnumLast [c] = isAlnumAscii c := rfl

theorem alnumLast_concat (l : List Char) (c : Char) :
    alnumLast (l ++ [c]) = isAlnumAscii c := by
  simp [alnumLast, List.getLast?_concat]

theorem dropLast_cons_cons (a b : Char) (l : List Char) :
    (a :: b :: l).dropLast = a :: (b :: l).dropLast := rfl

theorem bool_distrib (a x y z : Bool) :
    (a && (x || (y && z))) = ((a && x) || (y && (a && z))) := by
  cases a <;> cases x <;> cases y <;> cases z <;> rfl

/-- The scanner states agree with the spec grammar, modulo Python's
`$`-before-final-newline rule: `scanStart` accepts exactly the grammar
words and grammar words followed by one final newline, and `scanLabel`
does the same with the already-consumed label prefix prepended. -/
theorem scan_eq_aux : ∀ n : Nat, ∀ cs : List Char, cs.length ≤ n →
    ((∀ c0 p, isAlnumAscii c0 = true → (c0 :: p).all isLabelChar = true →
        (c0 :: p).length ≤ 63 →
        scanLabel (c0 :: p).length (alnumLast (c0 :: p)) cs
          = (hostWith (c0 :: p) cs || (endsNL cs && hostWith (c0 :: p) cs.dropLast)))
     ∧ scanStart cs
          = (hostnameGrammar cs || (endsNL cs && hostnameGrammar cs.dropLast))) := by
  intro n
  induction n with
  | zero =>
    intro cs hcs
    have hnil : cs = [] := List.length_eq_zero.mp (Nat.le_zero.mp hcs)
    subst hnil
    constructor
    · intro c0 p h1 h2 h3
      rw [scanLabel_nil, hostWith_nil, endsNL_nil, specLabel_good c0 p h1 h2 h3]
      simp
    · rw [scanStart_nil, hostnameGrammar_nil, endsNL_nil]; simp
  | succ n ih =>
    intro cs hcs
    cases cs with
    | nil =>
      constructor
      · intro c0 p h1 h2 h3
        rw [scanLabel_nil, hostWith_nil, endsNL_nil, specLabel_good c0 p h1 h2 h3]
        simp
      · rw [scanStart_nil, hostnameGrammar_nil, endsNL_nil]; simp
    | cons c rest =>
      have hrest : rest.length ≤ n := by
        simp only [List.length_cons] at hcs; omega
      constructor
      · -- the scanLabel half
        intro c0 p h1 h2 h3
        by_cases hdot : c = '.'
        · subst hdot
          rw [scanLabel_dot, (ih rest hrest).2, hostWith_dot,
            specLabel_good c0 p h1 h2 h3]
          cases rest with
          | nil =>
            rw [endsNL_nil, endsNL_single, hostnameGrammar_nil]
            simp
          | cons r rs =>
            rw [endsNL_cons_cons, dropLast_cons_cons, hostWith_dot,
              specLabel_good c0 p h1 h2 h3, bool_distrib]
        · by_cases hlc : isLabelChar c = true
          · have hcnl : ¬ c = '\n' := by
              intro h; subst h; exact absurd hlc (by decide)
            rw [scanLabel_labelchar _ _ c rest hdot hlc]
            by_cases h63 : (c0 :: p).length < 63
            · have hall : ((c0 :: p) ++ [c]).all isLabelChar = true := by
                rw [List.all_append, h2, Bool.true_and]
                simp [hlc]
              have hlen : ((c0 :: p) ++ [c]).length ≤ 63 := by
                simp only [List.length_append, List.length_cons,
                  List.length_nil] at h63 ⊢
                omega
              have hIH := (ih rest hrest).1 c0 (p ++ [c]) h1 hall hlen
              rw [show c0 :: (p ++ [c]) = (c0 :: p) ++ [c] from rfl] at hIH
              rw [alnumLast_concat] at hIH
              have hlen2 : ((c0 :: p) ++ [c]).length = (c0 :: p).length + 1 := by
                simp
              rw [hlen2] at hIH
              have hd : decide ((c0 :: p).length < 63) = true := decide_eq_true h63
              rw [hd, Bool.true_and, hIH, hostWith_cons _ _ c hdot]
              cases rest with
              | nil =>
                rw [endsNL_nil, endsNL_single]
                have : decide (c = '\n') = false := by
                  simp [hcnl]
                rw [this]; simp
              | cons r rs =>
                rw [endsNL_cons_cons, dropLast_cons_cons,
                  hostWith_cons _ _ c hdot]
            · have h63e : decide ((c0 :: p).length < 63) = false :=
                decide_eq_false h63
              have hlong : 63 < ((c0 :: p) ++ [c]).length := by
                simp only [List.length_append, List.length_cons,
                  List.length_nil] at h63 ⊢
                omega
              rw [h63e, Bool.false_and, hostWith_cons _ _ c hdot,
                hostWith_long _ _ hlong]
              cases rest with
              | nil =>
                rw [endsNL_single]
                have : decide (c = '\n') = false := by simp [hcnl]
                rw [this]; simp
              | cons r rs =>
                rw [endsNL_cons_cons, dropLast_cons_cons,
                  hostWith_cons _ _ c hdot, hostWith_long _ _ hlong]
                simp
          · rw [Bool.not_eq_true] at hlc
            by_cases hnl : c = '\n'
            · subst hnl
              rw [scanLabel_nl]
              have hmem : '\n' ∈ (c0 :: p) ++ ['\n'] :=
                List.mem_append_right _ (List.mem_singleton.mpr rfl)
              have hbad : ∀ csx, hostWith ((c0 :: p) ++ ['\n']) csx = false :=
                fun csx => hostWith_badchar _ csx '\n' hmem rfl
              cases rest with
              | nil =>
                rw [hostWith_cons _ _ _ (by decide), hbad, endsNL_single,
                  List.dropLast_single, hostWith_nil,
                  specLabel_good c0 p h1 h2 h3]
                simp
              | cons r rs =>
                rw [hostWith_cons _ _ _ (by decide), hbad, endsNL_cons_cons,
                  dropLast_cons_cons, hostWith_cons _ _ _ (by decide), hbad]
                simp
            · rw [scanLabel_other _ _ c rest hdot hlc hnl]
              have hmem : c ∈ (c0 :: p) ++ [c] :=
                List.mem_append_right _ (List.mem_singleton.mpr rfl)
              have hbad : ∀ csx, hostWith ((c0 :: p) ++ [c]) csx = false :=
                fun csx => hostWith_badchar _ csx c hmem hlc
              cases rest with
              | nil =>
                rw [hostWith_cons _ _ c hdot, hbad, endsNL_single]
                have : decide (c = '\n') = false := by simp [hnl]
                rw [this]; simp
              | cons r rs =>
                rw [hostWith_cons _ _ c hdot, hbad, endsNL_cons_cons,
                  dropLast_cons_cons, hostWith_cons _ _ c hdot, hbad]
                simp
      · -- the scanStart half
        rw [scanStart_cons]
        by_cases ha : isAlnumAscii c = true
        · have hlc : isLabelChar c = true := by simp [isLabelChar, ha]
          have hdot : ¬ c = '.' := by
            intro h; subst h; exact absurd ha (by decide)
          have hcnl : ¬ c = '\n' := by
            intro h; subst h; exact absurd ha (by decide)
          have hIH := (ih rest hrest).1 c [] ha (by simp [hlc]) (by simp)
          rw [alnumLast_single, ha] at hIH
          simp only [List.length_cons, List.length_nil] at hIH
          rw [ha, Bool.true_and, hIH, hostnameGrammar_cons rest c hdot]
          cases rest with
          | nil =>
            rw [endsNL_nil, endsNL_single]
            have : decide (c = '\n') = false := by simp [hcnl]
            rw [this]; simp
          | cons r rs =>
            rw [endsNL_cons_cons, dropLast_cons_cons,
              hostnameGrammar_cons _ c hdot]
        · rw [Bool.not_eq_true] at ha
          rw [ha, Bool.false_and]
          by_cases hdot : c = '.'
          · subst hdot
            cases rest with
            | nil =>
              rw [hostnameGrammar_dot, endsNL_single]; simp
            | cons r rs =>
              rw [hostnameGrammar_dot, endsNL_cons_cons, dropLast_cons_cons,
                hostnameGrammar_dot]
              simp
          · cases rest with
            | nil =>
              rw [hostnameGrammar_cons _ c hdot, hostWith_headNotAlnum _ _ c ha,
                List.dropLast_single, hostnameGrammar_nil]
              simp
            | cons r rs =>
              rw [hostnameGrammar_cons _ c hdot, hostWith_headNotAlnum _ _ c ha,
                endsNL_cons_cons, dropLast_cons_cons,
                hostnameGrammar_cons _ c hdot, hostWith_headNotAlnum _ _ c ha]
              simp

/-- `validate_domain` accepts exactly the hostname-grammar words, plus —
via Python's rule that `$` also matches just before a newline ending the
string — any grammar word followed by one final newline. -/
theorem validate_domain_characterization (s : String) :
    validate_domain s
      = (hostnameGrammar s.data
          || (endsNL s.data && hostnameGrammar s.data.dropLast)) :=
  (scan_eq_aux s.data.length s.data le_rfl).2

/-! ### Base-domain extraction (`verify-dns.py` lines 38–42)

`extract_base_domain` strips leading/trailing dots, splits on dots, and
returns the join of the last two parts when more than two exist,
otherwise the original string. -/

/-- `str.strip "."`: remove every leading and trailing `'.'`. -/
def stripDots (cs : List Char) : List Char :=
  (((cs.dropWhile (fun c => c = '.')).reverse.dropWhile (fun c => c = '.'))).reverse

/-- `".".join`: interleave the parts with single dots. -/
def joinDots : List (List Char) → List Char
  | [] => []
  | [g] => g
  | g :: gs => g ++ '.' :: joinDots gs

/-- `extract_base_domain` of `verify-dns.py`: keep the last two
dot-separated labels of the dot-stripped string when there are more than
two, else return the input unchanged. -/
def extract_base_domain (d : String) : String :=
  if 2 < (splitDots (stripDots d.data)).length then
    String.mk (joinDots ((splitDots (stripDots d.data)).drop
      ((splitDots (stripDots d.data)).length - 2)))
  else d

theorem splitDots_single (cs : List Char) (h : '.' ∉ cs) :
    splitDots cs = [cs] := by
  induction cs with
  | nil => rfl
  | cons c rest ih =>
    have hc : ¬ c = '.' := fun hx => h (hx ▸ List.mem_cons_self c rest)
    have hr : '.' ∉ rest := fun hx => h (List.mem_cons_of_mem c hx)
    simp [splitDots, hc, ih hr, List.modifyHead]

theorem splitDots_sep (x y : List Char) (hx : '.' ∉ x) :
    splitDots (x ++ '.' :: y) = x :: splitDots y := by
  induction x with
  | nil => simp [splitDots]
  | cons a xs ih =>
    have ha : ¬ a = '.' := fun hq => hx (hq ▸ List.mem_cons_self a xs)
    have hxs : '.' ∉ xs := fun hq => hx (List.mem_cons_of_mem a hq)
    simp [splitDots, ha, ih hxs, List.modifyHead]

theorem splitDots_no_dot (cs : List Char) :
    ∀ g ∈ splitDots cs, '.' ∉ g := by
  induction cs with
  | nil =>
    intro g hg
    simp [splitDots] at hg
    simp [hg]
  | cons c rest ih =>
    intro g hg
    by_cases hc : c = '.'
    · subst hc
      simp only [splitDots, if_true] at hg
      rcases List.mem_cons.mp hg with h | h
      · simp [h]
      · exact ih g h
    · obtain ⟨g0, gs, hsd⟩ := splitDots_exists rest
      simp only [splitDots, hc, if_false, hsd, List.modifyHead] at hg
      rcases List.mem_cons.mp hg with h | h
      · subst h
        intro hmem
        rcases List.mem_cons.mp hmem with h2 | h2
        · exact hc h2.symm
        · exact ih g0 (hsd ▸ List.mem_cons_self g0 gs) h2
      · exact ih g (hsd ▸ List.mem_cons_of_mem g0 h)

theorem dropWhile_head_not (p : Char → Bool) (l : List Char) (a : Char)
    (h : (l.dropWhile p).head? = some a) : p a = false := by
  induction l with
  | nil => simp [List.dropWhile] at h
  | cons c rest ih =>
    by_cases hc : p c = true
    · rw [List.dropWhile_cons_of_pos hc] at h
      exact ih h
    · rw [List.dropWhile_cons_of_neg hc] at h
      simp at h
      subst h
      exact Bool.not_eq_true _ ▸ hc

theorem dropWhile_head_false (p : Char → Bool) (l : List Char)
    (h : ∀ a, l.head? = some a → p a = false) : l.dropWhile p = l := by
  cases l with
  | nil => rfl
  | cons c rest =>
    have : p c = false := h c rfl
    rw [List.dropWhile_cons_of_neg (by simp [this])]

theorem stripTrail_id (m : List Char)
    (h : ∀ a, m.getLast? = some a → ¬ a = '.') :
    (m.reverse.dropWhile (fun c => c = '.')).reverse = m := by
  have hd : m.reverse.dropWhile (fun c => c = '.') = m.reverse := by
    apply dropWhile_head_false
    intro a ha
    rw [List.head?_reverse] at ha
    simp [h a ha]
  rw [hd, List.reverse_reverse]

theorem stripDots_id (l : List Char)
    (h1 : ∀ a, l.head? = some a → ¬ a = '.')
    (h2 : ∀ a, l.getLast? = some a → ¬ a = '.') :
    stripDots l = l := by
  unfold stripDots
  have hinner : l.dropWhile (fun c => c = '.') = l :=
    dropWhile_head_false _ _ (fun a ha => by simp [h1 a ha])
  rw [hinner]
  exact stripTrail_id l h2

theorem getLast?_dropWhile (p : Char → Bool) (l : List Char)
    (h : l.dropWhile p ≠ []) : (l.dropWhile p).getLast? = l.getLast? := by
  induction l with
  | nil => simp [List.dropWhile] at h
  | cons c rest ih =>
    by_cases hc : p c = true
    · rw [List.dropWhile_cons_of_pos hc] at h ⊢
      cases rest with
      | nil => simp [List.dropWhile] at h
      | cons r rs => rw [ih h, List.getLast?_cons_cons]
    · rw [List.dropWhile_cons_of_neg hc]

theorem stripDots_head_not (cs : List Char) :
    ∀ a, (stripDots cs).head? = some a → ¬ a = '.' := by
  intro a ha hdot
  subst hdot
  unfold stripDots at ha
  rw [List.head?_reverse] at ha
  have hne : (cs.dropWhile (fun c => c = '.')).reverse.dropWhile (fun c => c = '.') ≠ [] := by
    intro h0; rw [h0] at ha; simp at ha
  rw [getLast?_dropWhile _ _ hne, List.getLast?_reverse] at ha
  have := dropWhile_head_not (fun c => c = '.') cs '.' ha
  simp at this

theorem stripDots_last_not (cs : List Char) :
    ∀ a, (stripDots cs).getLast? = some a → ¬ a = '.' := by
  intro a ha hdot
  subst hdot
  unfold stripDots at ha
  rw [List.getLast?_reverse] at ha
  have := dropWhile_head_not (fun c => c = '.') _ '.' ha
  simp at this

theorem splitDots_dot (cs : List Char) :
    splitDots ('.' :: cs) = [] :: splitDots cs := by
  rw [splitDots]; simp

theorem splitDots_cons (c : Char) (cs : List Char) (h : ¬ c = '.') :
    splitDots (c :: cs) = (splitDots cs).modifyHead (fun g => c :: g) := by
  rw [splitDots]; simp [h]

theorem splitDots_last_ne_nil (cs : List Char) (hcs : cs ≠ [])
    (h : ∀ a, cs.getLast? = some a → ¬ a = '.') :
    ∀ g, (splitDots cs).getLast? = some g → g ≠ [] := by
  induction cs with
  | nil => exact absurd rfl hcs
  | cons c rest ih =>
    intro g hg
    cases rest with
    | nil =>
      have hc : ¬ c = '.' := h c rfl
      rw [splitDots_cons c [] hc] at hg
      simp [splitDots, List.modifyHead] at hg
      subst hg; simp
    | cons r rs =>
      have hlast : ∀ a, (r :: rs).getLast? = some a → ¬ a = '.' := by
        intro a ha; exact h a (by rw [List.getLast?_cons_cons]; exact ha)
      obtain ⟨g0, gs, hsd⟩ := splitDots_exists (r :: rs)
      by_cases hc : c = '.'
      · subst hc
        rw [splitDots_dot, hsd, List.getLast?_cons_cons] at hg
        exact ih (by simp) hlast g (by rw [hsd]; exact hg)
      · rw [splitDots_cons c _ hc, hsd, List.modifyHead_cons] at hg
        cases gs with
        | nil =>
          simp at hg
          subst hg; simp
        | cons g1 gs2 =>
          rw [List.getLast?_cons_cons] at hg
          apply ih (by simp) hlast g
          rw [hsd, List.getLast?_cons_cons]
          exact hg

theorem drop_len_sub_two {α : Type} (l : List α) (h : 2 ≤ l.length) :
    ∃ x y, l.drop (l.length - 2) = [x, y] := by
  induction l with
  | nil => simp at h
  | cons a t ih =>
    cases t with
    | nil => simp at h
    | cons b u =>
      cases u with
      | nil => exact ⟨a, b, rfl⟩
      | cons v w =>
        have h2 : 2 ≤ (b :: v :: w).length := by simp
        obtain ⟨x, y, hxy⟩ := ih h2
        refine ⟨x, y, ?_⟩
        have hlen : (a :: b :: v :: w).length - 2 = ((b :: v :: w).length - 2) + 1 := by
          simp only [List.length_cons]; omega
        rw [hlen, List.drop_succ_cons, hxy]

theorem getLast?_of_drop_pair {α : Type} (l : List α) (k : Nat) (x y : α)
    (h : l.drop k = [x, y]) : l.getLast? = some y := by
  obtain ⟨t, ht⟩ := List.drop_suffix k l
  rw [h] at ht
  rw [← ht, List.getLast?_append]
  rfl

/-- The base-domain heuristic is idempotent: extracting the base domain
of an already-extracted base domain changes nothing. -/
theorem extract_base_domain_idem (d : String) :
    extract_base_domain (extract_base_domain d) = extract_base_domain d := by
  by_cases h : 2 < (splitDots (stripDots d.data)).length
  · obtain ⟨x, y, hxy⟩ := drop_len_sub_two (splitDots (stripDots d.data)) (by omega)
    have hfd : extract_base_domain d = String.mk (joinDots [x, y]) := by
      unfold extract_base_domain
      rw [if_pos h, hxy]
    have hx_mem : x ∈ splitDots (stripDots d.data) :=
      List.drop_subset _ _ (by rw [hxy]; exact List.mem_cons_self x [y])
    have hy_mem : y ∈ splitDots (stripDots d.data) :=
      List.drop_subset _ _
        (by rw [hxy]; exact List.mem_cons_of_mem x (List.mem_cons_self y []))
    have hx_nd : '.' ∉ x := splitDots_no_dot _ x hx_mem
    have hy_nd : '.' ∉ y := splitDots_no_dot _ y hy_mem
    have hcs_ne : stripDots d.data ≠ [] := by
      intro h0
      rw [h0] at h
      simp [splitDots] at h
    have hy_last : (splitDots (stripDots d.data)).getLast? = some y :=
      getLast?_of_drop_pair _ _ x y hxy
    have hy_ne : y ≠ [] :=
      splitDots_last_ne_nil _ hcs_ne (stripDots_last_not d.data) y hy_last
    have hylast_nd : ∀ a, ('.' :: y).getLast? = some a → ¬ a = '.' := by
      intro a ha hq
      cases y with
      | nil => exact hy_ne rfl
      | cons y0 ys =>
        rw [List.getLast?_cons_cons] at ha
        exact hy_nd (hq ▸ List.mem_of_getLast?_eq_some ha)
    rw [hfd]
    cases x with
    | nil =>
      have hstrip : stripDots ('.' :: y) = y := by
        unfold stripDots
        have h1 : ('.' :: y).dropWhile (fun c => c = '.')
            = y.dropWhile (fun c => c = '.') := by
          rw [List.dropWhile_cons_of_pos (by simp)]
        have h2 : y.dropWhile (fun c => c = '.') = y := by
          apply dropWhile_head_false
          intro a ha
          have hmem : a ∈ y := List.mem_of_mem_head? (Option.mem_def.mpr ha)
          have : ¬ a = '.' := fun hq => hy_nd (hq ▸ hmem)
          simp [this]
        rw [h1, h2]
        apply stripTrail_id
        intro a ha hq
        exact hy_nd (hq ▸ List.mem_of_getLast?_eq_some ha)
      have hdata : (String.mk (joinDots [[], y])).data = '.' :: y := rfl
      unfold extract_base_domain
      rw [hdata, hstrip, splitDots_single y hy_nd]
      simp
    | cons x0 xs =>
      have hx0 : ¬ x0 = '.' := fun hq => hx_nd (List.mem_cons.mpr (Or.inl hq.symm))
      have hdata : (String.mk (joinDots [x0 :: xs, y])).data
          = (x0 :: xs) ++ '.' :: y := rfl
      have hstrip : stripDots ((x0 :: xs) ++ '.' :: y) = (x0 :: xs) ++ '.' :: y := by
        apply stripDots_id
        · intro a ha hq
          simp only [List.cons_append, List.head?_cons] at ha
          exact hx0 (by rw [← hq]; exact (Option.some.injEq _ _).mp ha.symm ▸ rfl)
        · intro a ha
          rw [List.getLast?_append] at ha
          cases y with
          | nil => exact absurd rfl hy_ne
          | cons y0 ys =>
            rw [List.getLast?_cons_cons] at ha
            have hsome : (y0 :: ys).getLast?.isSome := by
              simp [List.getLast?_isSome]
            obtain ⟨b, hb⟩ := Option.isSome_iff_exists.mp hsome
            rw [hb] at ha
            simp at ha
            intro hq
            exact hy_nd (hq ▸ ha ▸ List.mem_of_getLast?_eq_some hb)
      unfold extract_base_domain
      rw [hdata, hstrip, splitDots_sep (x0 :: xs) y hx_nd, splitDots_single y hy_nd]
      simp
  · have hfd : extract_base_domain d = d := by
      unfold extract_base_domain
      rw [if_neg h]
    rw [hfd, hfd]

/-! ### A-record verification with retry/backoff (`verify-dns.py` lines 121–158)

DNS resolution is an external effect; it is supplied as an oracle giving
the A-record and CNAME answers per (zero-indexed) attempt. -/

/-- Per-attempt DNS resolution results. -/
structure ResolveOracle where
  aRecords : Nat → List String
  cnameRecords : Nat → List String

/-- Seconds slept before a given attempt: zero before the first, and
`2 ^ attempt` before each retry (`if attempt: delay = 2 ** attempt`). -/
def attemptDelay (attempt : Nat) : Nat :=
  if attempt = 0 then 0 else 2 ^ attempt

/-- The `for attempt in range(retries)` loop of `verify_domain_a_records`:
`fuel` counts attempts left, `attempt` the current index.  Returns the
boolean outcome and the total seconds slept. -/
def verifyGo (expected : List String) (o : ResolveOracle) (retries : Nat) :
    Nat → Nat → Bool × Nat
  | 0, _ => (false, 0)
  | fuel + 1, attempt =>
    let d := attemptDelay attempt
    let resolved := o.aRecords attempt
    if resolved.isEmpty then
      if !(o.cnameRecords attempt).isEmpty then
        if attempt = retries - 1 then (false, d)
        else
          let r := verifyGo expected o retries fuel (attempt + 1)
          (r.1, d + r.2)
      else if attempt = retries - 1 then (false, d)
      else
        let r := verifyGo expected o retries fuel (attempt + 1)
        (r.1, d + r.2)
    else if expected.any (fun ip => resolved.contains ip) then (true, d)
    else if attempt = retries - 1 then (false, d)
    else
      let r := verifyGo expected o retries fuel (attempt + 1)
      (r.1, d + r.2)

/-- `verify_domain_a_records` of `verify-dns.py`: logs an error and
returns `False` when no expected IPs are supplied; otherwise makes up to
`max 1 DNS_RETRIES` attempts.  Second component: total backoff slept. -/
def verify_domain_a_records (expected : List String) (o : ResolveOracle)
    (dnsRetries : Int) : Bool × Nat :=
  if expected.isEmpty then (false, 0)
  else
    verifyGo expected o (max 1 dnsRetries).toNat (max 1 dnsRetries).toNat 0

/-- `DNS_RETRIES` from `config.py`. -/
def DNS_RETRIES : Int := 3

/-- Total delay slept over attempts `a, a+1, …, a+k`. -/
def delaySum : Nat → Nat → Nat
  | a, 0 => attemptDelay a
  | a, k + 1 => attemptDelay a + delaySum (a + 1) k

theorem verifyGo_succeeds (expected : List String) (o : ResolveOracle)
    (retries : Nat) :
    ∀ k a fuel, a + fuel = retries → k < fuel →
    (∀ i, i < k → o.aRecords (a + i) = [] ∧ o.cnameRecords (a + i) = []) →
    (o.aRecords (a + k)).isEmpty = false →
    expected.any (fun ip => (o.aRecords (a + k)).contains ip) = true →
    verifyGo expected o retries fuel a = (true, delaySum a k) := by
  intro k
  induction k with
  | zero =>
    intro a fuel hsum hk _ hne hany
    cases fuel with
    | zero => omega
    | succ f =>
      rw [Nat.add_zero] at hne hany
      simp only [verifyGo, hne, hany, Bool.false_eq_true, if_false, if_true]
      rfl
  | succ k ih =>
    intro a fuel hsum hk hfail hne hany
    cases fuel with
    | zero => omega
    | succ f =>
      have h0 := hfail 0 (Nat.succ_pos k)
      rw [Nat.add_zero] at h0
      have hlast : ¬ a = retries - 1 := by omega
      have hrec := ih (a + 1) f (by omega) (by omega)
        (fun i hi => by
          have := hfail (i + 1) (by omega)
          rw [show a + (i + 1) = a + 1 + i by omega] at this
          exact this)
        (by rw [show a + 1 + k = a + (k + 1) by omega]; exact hne)
        (by rw [show a + 1 + k = a + (k + 1) by omega]; exact hany)
      simp only [verifyGo, h0.1, h0.2, List.isEmpty_nil, Bool.not_true,
        Bool.false_eq_true, if_false, hlast, if_true, hrec]
      rfl

theorem delaySum_shift : ∀ k a, 1 ≤ a → delaySum a k + 2 ^ a = 2 ^ (a + k + 1) := by
  intro k
  induction k with
  | zero =>
    intro a ha
    have hne : ¬ a = 0 := by omega
    have hp : 2 ^ (a + 1) = 2 ^ a * 2 := pow_succ 2 a
    simp only [delaySum, attemptDelay, hne, if_false, Nat.add_zero]
    omega
  | succ k ih =>
    intro a ha
    have hne : ¬ a = 0 := by omega
    have hIH := ih (a + 1) (by omega)
    have hp : 2 ^ (a + 1) = 2 ^ a * 2 := pow_succ 2 a
    have hexp : a + 1 + k + 1 = a + (k + 1) + 1 := by omega
    rw [hexp] at hIH
    simp only [delaySum, attemptDelay, hne, if_false]
    omega

theorem delaySum_zero_start (k : Nat) : delaySum 0 k = 2 ^ (k + 1) - 2 := by
  cases k with
  | zero => rfl
  | succ k =>
    have h := delaySum_shift k 1 le_rfl
    have hpos : 2 ≤ 2 ^ (1 + k + 1) := by
      have : (2 : Nat) ^ 1 ≤ 2 ^ (1 + k + 1) :=
        Nat.pow_le_pow_right (by omega) (by omega)
      simpa using this
    have hexp : 1 + k + 1 = k + 1 + 1 := by omega
    rw [hexp] at h hpos
    simp only [delaySum]
    have ha0 : attemptDelay 0 = 0 := rfl
    rw [ha0]
    simp only [Nat.zero_add]
    omega

/-! ### IP addresses and CIDR networks

Embedding of the parts of Python's `ipaddress` module used by
`verify-dns.py`: `ip_address`, strict `ip_network`, and membership.
Parsing failures are `none` (a raised `ValueError`). -/

/-- A parsed IP address: version (4 or 6) and numeric value. -/
structure IPAddr where
  version : Nat
  val : Nat
deriving DecidableEq, Repr

/-- A parsed CIDR network: version, network value (host bits zero after
the strict check), and prefix length. -/
structure IPNet where
  version : Nat
  netval : Nat
  plen : Nat
deriving DecidableEq, Repr

def addrBits (version : Nat) : Nat := if version = 4 then 32 else 128

/-- `ip_obj in network`: false across versions, else equal network
prefixes. -/
def memNet (a : IPAddr) (n : IPNet) : Bool :=
  a.version = n.version &&
    a.val / 2 ^ (addrBits n.version - n.plen) = n.netval / 2 ^ (addrBits n.version - n.plen)

/-- Split a character list on a separator (empty parts kept), as Python's
`str.split` with a one-character separator. -/
def splitOnChar (sep : Char) : List Char → List (List Char)
  | [] => [[]]
  | c :: rest =>
    if c = sep then [] :: splitOnChar sep rest
    else (splitOnChar sep rest).modifyHead (fun g => c :: g)

def digitsToNat (s : List Char) : Nat :=
  s.foldl (fun acc c => 10 * acc + (c.toNat - 48)) 0

/-- One dotted-quad octet: 1–3 ASCII digits, no leading zero, ≤ 255. -/
def parseOctet (s : List Char) : Option Nat :=
  if s.isEmpty then none
  else if !s.all Char.isDigit then none
  else if 3 < s.length then none
  else if 1 < s.length && s.head? = some '0' then none
  else if 255 < digitsToNat s then none
  else some (digitsToNat s)

/-- `IPv4Address` string parsing: exactly four valid octets. -/
def parseIPv4 (s : List Char) : Option Nat :=
  match splitOnChar '.' s with
  | [a, b, c, d] =>
    match parseOctet a, parseOctet b, parseOctet c, parseOctet d with
    | some w, some x, some y, some z =>
      some (((w * 256 + x) * 256 + y) * 256 + z)
    | _, _, _, _ => none
  | _ => none

def hexDigitVal (c : Char) : Option Nat :=
  let n := c.toNat
  if 48 ≤ n ∧ n ≤ 57 then some (n - 48)
  else if 97 ≤ n ∧ n ≤ 102 then some (n - 87)
  else if 65 ≤ n ∧ n ≤ 70 then some (n - 55)
  else none

/-- One IPv6 hextet: 1–4 hex digits. -/
def parseHextet (s : List Char) : Option Nat :=
  if s.isEmpty then none
  else if 4 < s.length then none
  else s.foldl (fun acc c =>
    match acc, hexDigitVal c with
    | some a, some v => some (a * 16 + v)
    | _, _ => none) (some 0)

/-- A colon-separated IPv6 part after hextet classification. -/
inductive HPart
  | emptyPart
  | val (n : Nat)
  | bad
deriving DecidableEq, Repr

def toHPart (p : List Char) : HPart :=
  if p.isEmpty then HPart.emptyPart
  else
    match parseHextet p with
    | some v => HPart.val v
    | none => HPart.bad

def foldHextets : List HPart → Nat → Option Nat
  | [], acc => some acc
  | HPart.val v :: rest, acc => foldHextets rest (acc * 65536 + v)
  | _, _ => none

/-- The hextet-assembly of CPython's IPv6 parser: locate the at most one
interior `::`, check endpoint colons, and fold the high and low hextets
around the skipped zero block. -/
def assembleV6 (ps : List HPart) : Option Nat :=
  if 9 < ps.length then none
  else
    match (List.range ps.length).filter (fun i =>
      decide (1 ≤ i) && decide (i < ps.length - 1)
        && decide (ps.get? i = some HPart.emptyPart)) with
    | [] =>
      if ps.length = 8 ∧ ps.head? ≠ some HPart.emptyPart
          ∧ ps.getLast? ≠ some HPart.emptyPart then
        foldHextets ps 0
      else none
    | [si] =>
      let hi := if ps.head? = some HPart.emptyPart then si - 1 else si
      let lo0 := ps.length - si - 1
      let lo := if ps.getLast? = some HPart.emptyPart then lo0 - 1 else lo0
      if ps.head? = some HPart.emptyPart ∧ hi ≠ 0 then none
      else if ps.getLast? = some HPart.emptyPart ∧ lo ≠ 0 then none
      else if 8 ≤ hi + lo then none
      else
        match foldHextets (ps.take hi) 0 with
        | none => none
        | some hiVal =>
          foldHextets (ps.drop (ps.length - lo)) (hiVal * 65536 ^ (8 - (hi + lo)))
    | _ => none

/-- `IPv6Address` string parsing: split on colons, convert a trailing
dotted-quad part into two hextets, then assemble. -/
def parseIPv6 (s : List Char) : Option Nat :=
  let parts := splitOnChar ':' s
  if parts.length < 3 then none
  else
    match parts.getLast? with
    | none => none
    | some lp =>
      if lp.contains '.' then
        match parseIPv4 lp with
        | none => none
        | some v4 =>
          assembleV6 (parts.dropLast.map toHPart
            ++ [HPart.val (v4 / 65536), HPart.val (v4 % 65536)])
      else assembleV6 (parts.map toHPart)

/-- `ipaddress.ip_address`: IPv4 first, then IPv6. -/
def parse_ip (s : String) : Option IPAddr :=
  match parseIPv4 s.data with
  | some v => some ⟨4, v⟩
  | none =>
    match parseIPv6 s.data with
    | some v => some ⟨6, v⟩
    | none => none

/-- Prefix length of a contiguous netmask value, if it is one. -/
def prefixFromMask (m bits : Nat) : Option Nat :=
  (List.range (bits + 1)).find? (fun p => decide (m = 2 ^ bits - 2 ^ (bits - p)))

/-- Prefix length of a contiguous hostmask value, if it is one. -/
def prefixFromHostmask (m bits : Nat) : Option Nat :=
  (List.range (bits + 1)).find? (fun p => decide (m = 2 ^ (bits - p) - 1))

/-- `_make_netmask`: a decimal prefix length, else — for IPv4 only — a
dotted-quad netmask or hostmask; the IPv6 variant has no address-form
fallback, so any non-decimal prefix is invalid there. -/
def make_netmask (s : List Char) (bits : Nat) (isV4 : Bool) : Option Nat :=
  if !s.isEmpty && s.all Char.isDigit then
    if digitsToNat s ≤ bits then some (digitsToNat s) else none
  else if isV4 then
    match parseIPv4 s with
    | none => none
    | some m =>
      match prefixFromMask m 32 with
      | some p => some p
      | none => prefixFromHostmask m 32
  else none

def ip_network4 (s : List Char) : Option IPNet :=
  match splitOnChar '/' s with
  | [a] =>
    match parseIPv4 a with
    | some v => some ⟨4, v, 32⟩
    | none => none
  | [a, p] =>
    match parseIPv4 a, make_netmask p 32 true with
    | some v, some pl =>
      if v % 2 ^ (32 - pl) = 0 then some ⟨4, v, pl⟩ else none
    | _, _ => none
  | _ => none

def ip_network6 (s : List Char) : Option IPNet :=
  match splitOnChar '/' s with
  | [a] =>
    match parseIPv6 a with
    | some v => some ⟨6, v, 128⟩
    | none => none
  | [a, p] =>
    match parseIPv6 a, make_netmask p 128 false with
    | some v, some pl =>
      if v % 2 ^ (128 - pl) = 0 then some ⟨6, v, pl⟩ else none
    | _, _ => none
  | _ => none

/-- Strict `ipaddress.ip_network`: IPv4 network first, then IPv6; host
bits set make the candidate invalid. -/
def ip_network (s : String) : Option IPNet :=
  match ip_network4 s.data with
  | some n => some n
  | none => ip_network6 s.data

/-- `ip_in_any_cidr` of `verify-dns.py` (lines 100–108): parse the
address (an unparseable address raises, modelled as `none`), then test
each CIDR inside a `try/except` that silently skips malformed entries. -/
def ip_in_any_cidr (ip : String) (cidrs : List String) : Option Bool :=
  match parse_ip ip with
  | none => none
  | some a =>
    some (cidrs.any (fun c =>
      match ip_network c with
      | some n => memNet a n
      | none => false))

/-- The inner loop of `check_cloudflare_proxy`: first A record whose
`ip_in_any_cidr` check is true wins; an exception propagates. -/
def cfLoop (cf4 : List String) : List String → Option Bool
  | [] => some false
  | ip :: rest =>
    match ip_in_any_cidr ip cf4 with
    | none => none
    | some true => some true
    | some false => cfLoop cf4 rest

/-- `check_cloudflare_proxy` of `verify-dns.py` (lines 110–119): false
when no A records resolve; otherwise scan the records against the IPv4
ranges.  The `cf6` argument is part of the signature but unused. -/
def check_cloudflare_proxy (aRecords cf4 cf6 : List String) : Option Bool :=
  if aRecords.isEmpty then some false
  else cfLoop cf4 aRecords

/-- The hardcoded minimal fallback IPv4 ranges of
`fetch_cloudflare_cidrs` (`verify-dns.py` lines 93–98). -/
def cloudflare_fallback_v4 : List String :=
  ["173.245.48.0/20", "103.21.244.0/22", "103.22.200.0/22", "103.31.4.0/22",
   "141.101.64.0/18", "108.162.192.0/18", "190.93.240.0/20", "188.114.96.0/20",
   "197.234.240.0/22", "198.41.128.0/17", "162.158.0.0/15", "104.16.0.0/13",
   "104.24.0.0/14", "172.64.0.0/13", "131.0.72.0/22"]

/-! ### Provider identification (`verify-dns.py` lines 56–81)

NS resolution is external; the resolved NS hostnames are an input. -/

/-- Python's `needle in haystack` substring test. -/
def containsSub (needle : List Char) : List Char → Bool
  | [] => needle.isEmpty
  | c :: t => needle.isPrefixOf (c :: t) || containsSub needle t

/-- The ordered substring-signature table applied to one lowercased
nameserver hostname. -/
def providerOf (ns : List Char) : Option String :=
  if containsSub "awsdns".data ns then some "Route 53"
  else if containsSub "cloudflare".data ns then some "Cloudflare"
  else if containsSub "godaddy".data ns then some "GoDaddy"
  else if containsSub "dns.google".data ns then some "Google Cloud DNS"
  else if containsSub "dnsmadeeasy".data ns then some "DNS Made Easy"
  else if containsSub "registrar-servers".data ns then some "Namecheap"
  else if containsSub "networksolutions".data ns then some "Network Solutions"
  else if containsSub "azure-dns".data ns then some "Microsoft Azure DNS"
  else if containsSub "ns.digitalocean".data ns then some "DigitalOcean"
  else if containsSub "ns1".data ns then some "NS1"
  else if containsSub "ultradns".data ns then some "UltraDNS"
  else if containsSub "yahoo".data ns then some "Yahoo Small Business"
  else if containsSub "akamai".data ns then some "Akamai"
  else if containsSub "rackspace".data ns then some "Rackspace Cloud DNS"
  else if containsSub "oraclecloud".data ns then some "Oracle Cloud DNS"
  else none

def identifyLoop : List (List Char) → String
  | [] => "Unknown provider"
  | n :: rest =>
    match providerOf n with
    | some p => p
    | none => identifyLoop rest

/-- `identify_dns_provider`, applied to the resolved NS hostnames of the
base domain: first signature match across the lowercased records. -/
def identify_dns_provider (nsRecords : List String) : String :=
  identifyLoop (nsRecords.map (fun s => s.data.map Char.toLower))

/-! ### The standalone verifier entry point (`verify-dns.py` lines 160–201) -/

/-- The external-world inputs of one run of the standalone verifier. -/
structure VerifyDnsEnv where
  nsRecords : List String
  proxyARecords : List String
  cf4 : List String
  cf6 : List String
  oracle : ResolveOracle
  dnsRetries : Int

/-- The observable outcome of `main`: the JSON fields printed, the
process exit code, and whether `verify_domain_a_records` was invoked. -/
structure VerifyDnsOutput where
  message : String
  dnsProvider : String
  cloudflareProxy : Option String
  exitCode : Nat
  ranVerify : Bool
deriving DecidableEq, Repr

/-- `main` of `verify-dns.py`: identify the provider; on Cloudflare with
the proxy detected, short-circuit with exit 0; otherwise compare A
records and exit 0 exactly on a match.  `none` models an uncaught
exception. -/
def verify_dns_main (env : VerifyDnsEnv) (expected : List String) :
    Option VerifyDnsOutput :=
  if identify_dns_provider env.nsRecords = "Cloudflare" then
    match check_cloudflare_proxy env.proxyARecords env.cf4 env.cf6 with
    | none => none
    | some true =>
      some ⟨"Please disable the proxy in Cloudflare to match SSL certificate",
        identify_dns_provider env.nsRecords, some "enabled", 0, false⟩
    | some false =>
      some ⟨if (verify_domain_a_records expected env.oracle env.dnsRetries).1
              then "matched" else "not matched",
        identify_dns_provider env.nsRecords, some "disabled",
        if (verify_domain_a_records expected env.oracle env.dnsRetries).1
          then 0 else 1, true⟩
  else
    some ⟨if (verify_domain_a_records expected env.oracle env.dnsRetries).1
            then "matched" else "not matched",
      identify_dns_provider env.nsRecords, none,
      if (verify_domain_a_records expected env.oracle env.dnsRetries).1
        then 0 else 1, true⟩

/-! ### The lifecycle orchestrator (`manage-domain.py`)

Filesystem and external-process effects are inputs; each flow returns a
structured outcome. -/

/-- `check_domain_exists` (line 243–244): an available or enabled config
file exists for the domain. -/
def check_domain_exists (availableExists enabledExists : Bool) : Bool :=
  availableExists || enabledExists

/-- External-world inputs of the `request` flow. -/
structure RequestEnv where
  isRoot : Bool
  depsOk : Bool
  availableExists : Bool
  enabledExists : Bool
  certIssueOk : Bool
  nginxTestOk : Bool
  nginxReloadOk : Bool
deriving DecidableEq, Repr

/-- Observable outcome of the `request` flow. -/
structure RequestOutcome where
  exitCode : Nat
  certIssueCalls : Nat
  configWritten : Bool
  symlinkCreated : Bool
  availableAfter : Bool
  enabledAfter : Bool
deriving DecidableEq, Repr

/-- The `request` branch of `main` (`manage-domain.py` lines 341–395),
after root/dependency gates and domain validation: an already-configured
domain is a warning with exit 0; a failed certificate request exits 1
before any proxy configuration is touched; otherwise the config is
written, the site enabled, and nginx tested (reload failure is logged
but does not change the exit code). -/
def request_main (domain : String) (e : RequestEnv) : RequestOutcome :=
  if !e.isRoot then ⟨1, 0, false, false, e.availableExists, e.enabledExists⟩
  else if !e.depsOk then ⟨1, 0, false, false, e.availableExists, e.enabledExists⟩
  else if !validate_domain domain then
    ⟨1, 0, false, false, e.availableExists, e.enabledExists⟩
  else if check_domain_exists e.availableExists e.enabledExists then
    ⟨0, 0, false, false, e.availableExists, e.enabledExists⟩
  else if e.certIssueOk then
    if e.nginxTestOk then ⟨0, 1, true, true, true, true⟩
    else ⟨1, 1, true, true, true, true⟩
  else ⟨1, 1, false, false, e.availableExists, e.enabledExists⟩

/-- External-world inputs of the `delete` flow. -/
structure DeleteEnv where
  enabledPresent : Bool
  unlinkEnabledOk : Bool
  availablePresent : Bool
  unlinkAvailableOk : Bool
  livedirPresent : Bool
  certbotRevokeExit : Int
  certbotDeleteExit : Int
  nginxTestOk : Bool
  nginxReloadOk : Bool
deriving DecidableEq, Repr

/-- How `delete_domain` finishes. -/
inductive DeleteReport
  | success
  | partialWarning
  | fatalReloadFailed
  | fatalInvalidConfig
deriving DecidableEq, Repr

/-- One externally visible step of `delete_domain`, in program order. -/
inductive DeleteStep
  | unlinkEnabled (ok : Bool)
  | enabledAbsent
  | unlinkAvailable (ok : Bool)
  | availableAbsent
  | certbotRevoke (exitCode : Int)
  | certbotDelete (exitCode : Int)
  | certAbsent
  | nginxTestStep (ok : Bool)
  | nginxReloadStep (ok : Bool)
deriving DecidableEq, Repr

/-- `delete_domain` (`manage-domain.py` lines 293–339): three teardown
actions run unconditionally in order; `ok` records only the two unlink
failures, while the certbot exit codes are discarded
(`stdout`/`stderr` to devnull, return code unchecked); then nginx test
and reload gate the final report.  Returns the report and the step
trace. -/
def delete_domain (e : DeleteEnv) : DeleteReport × List DeleteStep :=
  let ok1 : Bool := if e.enabledPresent then e.unlinkEnabledOk else true
  let t1 : List DeleteStep :=
    if e.enabledPresent then [DeleteStep.unlinkEnabled e.unlinkEnabledOk]
    else [DeleteStep.enabledAbsent]
  let ok2 : Bool := ok1 && (if e.availablePresent then e.unlinkAvailableOk else true)
  let t2 : List DeleteStep :=
    if e.availablePresent then [DeleteStep.unlinkAvailable e.unlinkAvailableOk]
    else [DeleteStep.availableAbsent]
  let t3 : List DeleteStep :=
    if e.livedirPresent then
      [DeleteStep.certbotRevoke e.certbotRevokeExit,
       DeleteStep.certbotDelete e.certbotDeleteExit]
    else [DeleteStep.certAbsent]
  if e.nginxTestOk then
    if e.nginxReloadOk then
      ((if ok2 then DeleteReport.success else DeleteReport.partialWarning),
       t1 ++ t2 ++ t3 ++ [DeleteStep.nginxTestStep true, DeleteStep.nginxReloadStep true])
    else
      (DeleteReport.fatalReloadFailed,
       t1 ++ t2 ++ t3 ++ [DeleteStep.nginxTestStep true, DeleteStep.nginxReloadStep false])
  else
    (DeleteReport.fatalInvalidConfig,
     t1 ++ t2 ++ t3 ++ [DeleteStep.nginxTestStep false])

/-- The claim's (and spec's) notion of "all three actions succeeded": the
enabled link removed, the available file removed, the certificate
revoke-and-delete exited zero — each counted as success when the
resource was absent. -/
def deleteAllActionsSucceeded (e : DeleteEnv) : Bool :=
  (if e.enabledPresent then e.unlinkEnabledOk else true) &&
  (if e.availablePresent then e.unlinkAvailableOk else true) &&
  (if e.livedirPresent then
    decide (e.certbotRevokeExit = 0) && decide (e.certbotDeleteExit = 0)
   else true)

/-! ### Claim theorems -/

/-- C1 (counterexample): the claim says `verify_domain_a_records`
returns true whenever no expected IPs are supplied; on the code it
returns `False` (after logging an error), even when resolution would
succeed. -/
theorem C1_counterexample :
    (verify_domain_a_records []
      ⟨fun _ => ["203.0.113.10"], fun _ => []⟩ DNS_RETRIES).1 = false := rfl

/-- C1 (amended): for every domain, when DNS verification is invoked
with an empty set of expected IPs, `verify_domain_a_records` logs an
error and immediately returns false (no attempts, no sleeping) — it does
not treat the check as vacuously successful. -/
theorem C1_no_expected_ips_returns_false (o : ResolveOracle) (dnsRetries : Int) :
    verify_domain_a_records [] o dnsRetries = (false, 0) := rfl

/-- C2 (counterexample): with all three resources present, both unlinks
succeeding, both certbot commands exiting nonzero, and a valid
post-state with successful reload, `delete_domain` reports overall
success even though the certificate action failed — refuting "success
iff all three actions succeeded". -/
theorem C2_counterexample :
    (delete_domain ⟨true, true, true, true, true, 1, 1, true, true⟩).1
        = DeleteReport.success
      ∧ deleteAllActionsSucceeded ⟨true, true, true, true, true, 1, 1, true, true⟩
        = false := by
  constructor <;> rfl

/-- C2 (amended): `delete_domain` attempts all three teardown actions in
order with no failure aborting a later action, and records the failures
of the two filesystem actions; the certbot revoke/delete exit codes are
discarded.  After a valid post-state and successful reload it reports
success iff the two filesystem actions succeeded, and otherwise a
non-fatal warning. -/
theorem C2_delete_best_effort_amended (e : DeleteEnv)
    (ht : e.nginxTestOk = true) (hr : e.nginxReloadOk = true) :
    ((delete_domain e).1 = DeleteReport.success ↔
      ((e.enabledPresent = true → e.unlinkEnabledOk = true) ∧
       (e.availablePresent = true → e.unlinkAvailableOk = true)))
    ∧ ((delete_domain e).1 = DeleteReport.success ∨
       (delete_domain e).1 = DeleteReport.partialWarning)
    ∧ (e.livedirPresent = true →
        DeleteStep.certbotRevoke e.certbotRevokeExit ∈ (delete_domain e).2 ∧
        DeleteStep.certbotDelete e.certbotDeleteExit ∈ (delete_domain e).2)
    ∧ (e.availablePresent = true →
        DeleteStep.unlinkAvailable e.unlinkAvailableOk ∈ (delete_domain e).2) := by
  obtain ⟨ep, ue, ap, ua, lp, cre, cde, nt, nr⟩ := e
  simp only at ht hr
  subst ht hr
  cases ep <;> cases ue <;> cases ap <;> cases ua <;> cases lp <;>
    simp [delete_domain]

/-- C2 (witness): a run with the enabled-site unlink failing and
everything else fine ends in a partial-deletion warning, with the
certbot steps still attempted. -/
theorem C2_delete_best_effort_witness :
    ((delete_domain ⟨true, false, true, true, true, 0, 0, true, true⟩).1
        = DeleteReport.success ↔
      ((true = true → false = true) ∧ (true = true → true = true)))
    ∧ ((delete_domain ⟨true, false, true, true, true, 0, 0, true, true⟩).1
        = DeleteReport.success ∨
       (delete_domain ⟨true, false, true, true, true, 0, 0, true, true⟩).1
        = DeleteReport.partialWarning)
    ∧ (true = true →
        DeleteStep.certbotRevoke 0
          ∈ (delete_domain ⟨true, false, true, true, true, 0, 0, true, true⟩).2 ∧
        DeleteStep.certbotDelete 0
          ∈ (delete_domain ⟨true, false, true, true, true, 0, 0, true, true⟩).2)
    ∧ (true = true →
        DeleteStep.unlinkAvailable true
          ∈ (delete_domain ⟨true, false, true, true, true, 0, 0, true, true⟩).2) :=
  C2_delete_best_effort_amended ⟨true, false, true, true, true, 0, 0, true, true⟩
    rfl rfl

/-- C3: when the identified provider is Cloudflare and the resolved A
records fall inside a known Cloudflare CIDR, the standalone verifier
short-circuits: proxy status "enabled", the operator message, exit code
0, and no A-record-to-expected-IP comparison — for any supplied
expected IPs. -/
theorem C3_cloudflare_proxy_short_circuit (env : VerifyDnsEnv)
    (expected : List String)
    (hp : identify_dns_provider env.nsRecords = "Cloudflare")
    (hx : check_cloudflare_proxy env.proxyARecords env.cf4 env.cf6 = some true) :
    verify_dns_main env expected =
      some ⟨"Please disable the proxy in Cloudflare to match SSL certificate",
        "Cloudflare", some "enabled", 0, false⟩ := by
  simp only [verify_dns_main, hp, hx, if_true]

/-- C3 (witness): concrete run with Cloudflare nameservers, an A record
in the
hardcoded fallback range `104.16.0.0/13`, and expected IPs supplied. -/
theorem C3_cloudflare_proxy_witness :
    verify_dns_main
      ⟨["dana.ns.cloudflare.com"], ["104.16.132.229"], cloudflare_fallback_v4,
        [], ⟨fun _ => [], fun _ => []⟩, DNS_RETRIES⟩ ["203.0.113.10"]
      = some ⟨"Please disable the proxy in Cloudflare to match SSL certificate",
          "Cloudflare", some "enabled", 0, false⟩ :=
  C3_cloudflare_proxy_short_circuit _ _ rfl rfl

/-- C4: with a non-empty expected set, `verify_domain_a_records` makes
up to `max 1 DNS_RETRIES` attempts; when attempts `0..k-1` resolve
nothing (no A, no CNAME) and attempt `k` resolves a matching record, it
returns true with total sleep `2^1 + … + 2^k = 2^(k+1) - 2` seconds
(zero delay before the first attempt, `2^attempt` before each retry). -/
theorem C4_retry_backoff (expected : List String) (o : ResolveOracle)
    (dnsRetries : Int) (k : Nat)
    (hne : expected ≠ [])
    (hk : k < (max 1 dnsRetries).toNat)
    (hfail : ∀ i, i < k → o.aRecords i = [] ∧ o.cnameRecords i = [])
    (hA : o.aRecords k ≠ [])
    (hmatch : expected.any (fun ip => (o.aRecords k).contains ip) = true) :
    verify_domain_a_records expected o dnsRetries = (true, 2 ^ (k + 1) - 2) := by
  have hexp : expected.isEmpty = false := by
    cases expected with
    | nil => exact absurd rfl hne
    | cons a t => rfl
  have hAe : (o.aRecords (0 + k)).isEmpty = false := by
    rw [Nat.zero_add]
    cases hq : o.aRecords k with
    | nil => exact absurd hq hA
    | cons a t => rfl
  have h := verifyGo_succeeds expected o (max 1 dnsRetries).toNat k 0
    (max 1 dnsRetries).toNat (Nat.zero_add _) hk
    (fun i hi => by rw [Nat.zero_add]; exact hfail i hi)
    hAe
    (by rw [Nat.zero_add]; exact hmatch)
  rw [delaySum_zero_start] at h
  simp only [verify_domain_a_records, hexp, Bool.false_eq_true, if_false]
  exact h

/-- C4 (witness): `DNS_RETRIES = 3`, resolution failing on the first two
attempts and matching on the third: result true after 2 + 4 = 6 seconds
of backoff. -/
theorem C4_retry_backoff_witness :
    verify_domain_a_records ["203.0.113.10"]
      ⟨fun n => if n = 2 then ["203.0.113.10"] else [], fun _ => []⟩
      DNS_RETRIES = (true, 6) := by
  have h := C4_retry_backoff ["203.0.113.10"]
    ⟨fun n => if n = 2 then ["203.0.113.10"] else [], fun _ => []⟩
    DNS_RETRIES 2 (by decide) (by decide)
    (fun i hi => by
      match i, hi with
      | 0, _ => exact ⟨rfl, rfl⟩
      | 1, _ => exact ⟨rfl, rfl⟩)
    (by decide) (by decide)
  norm_num at h
  exact h

/-- C5 (counterexample): `validate_domain` accepts
`"example.com\n"` — Python's `$` matches before a trailing newline — but
the newline is outside the hostname grammar's alphabet, so acceptance is
not equivalent to matching the grammar. -/
theorem C5_counterexample :
    validate_domain "example.com\n" = true
      ∧ hostnameGrammar "example.com\n".data = false := by
  constructor <;> rfl

/-- C5 (amended): `validate_domain` accepts a string iff it matches the
hostname grammar `label(.label)*` (labels of 1–63 alphanumerics and
internal hyphens, no leading/trailing hyphen), or it is such a string
followed by one trailing newline.  In particular `"example.com"` is
accepted while `"-bad.com"` and `"a..b.com"` are rejected. -/
theorem C5_validate_domain_amended :
    (∀ s : String, validate_domain s
      = (hostnameGrammar s.data
          || (endsNL s.data && hostnameGrammar s.data.dropLast)))
    ∧ validate_domain "example.com" = true
    ∧ validate_domain "-bad.com" = false
    ∧ validate_domain "a..b.com" = false :=
  ⟨validate_domain_characterization, rfl, rfl, rfl⟩

/-- C6: for a valid domain whose proxy configuration already exists
(available or enabled), `request` is an idempotent no-op: exit code 0,
no certificate-issuance call, and no proxy configuration state created
or modified. -/
theorem C6_request_already_configured_noop (domain : String) (e : RequestEnv)
    (hroot : e.isRoot = true) (hdeps : e.depsOk = true)
    (hv : validate_domain domain = true)
    (hx : check_domain_exists e.availableExists e.enabledExists = true) :
    request_main domain e = ⟨0, 0, false, false, e.availableExists, e.enabledExists⟩ := by
  simp [request_main, hroot, hdeps, hv, hx]

/-- C6 (witness): requesting `example.com` when its available config
exists. -/
theorem C6_request_noop_witness :
    request_main "example.com" ⟨true, true, true, false, true, true, true⟩
      = ⟨0, 0, false, false, true, false⟩ :=
  C6_request_already_configured_noop "example.com"
    ⟨true, true, true, false, true, true, true⟩ rfl rfl rfl rfl

/-- C7: for a valid unconfigured domain, a failed certificate issuance
makes `request` exit 1 before any proxy configuration is created or
enabled: no config written, no symlink made, state unchanged. -/
theorem C7_cert_failure_aborts_before_config (domain : String) (e : RequestEnv)
    (hroot : e.isRoot = true) (hdeps : e.depsOk = true)
    (hv : validate_domain domain = true)
    (hx : check_domain_exists e.availableExists e.enabledExists = false)
    (hc : e.certIssueOk = false) :
    request_main domain e = ⟨1, 1, false, false, e.availableExists, e.enabledExists⟩ := by
  simp [request_main, hroot, hdeps, hv, hx, hc]

/-- C7 (witness): certificate issuance failing for an unconfigured
`example.com`. -/
theorem C7_cert_failure_witness :
    request_main "example.com" ⟨true, true, false, false, false, true, true⟩
      = ⟨1, 1, false, false, false, false⟩ :=
  C7_cert_failure_aborts_before_config "example.com"
    ⟨true, true, false, false, false, true, true⟩ rfl rfl rfl rfl rfl

/-- C8: `check_cloudflare_proxy` never consults its IPv6-CIDR argument:
two runs differing only in `cf6` produce the same result. -/
theorem C8_cloudflare_check_ignores_ipv6 (aRecords cf4 cf6a cf6b : List String) :
    check_cloudflare_proxy aRecords cf4 cf6a
      = check_cloudflare_proxy aRecords cf4 cf6b := rfl

/-- C10: base-domain extraction is idempotent:
`extract_base_domain (extract_base_domain d) = extract_base_domain d`
for every input string. -/
theorem C10_extract_base_domain_idempotent (d : String) :
    extract_base_domain (extract_base_domain d) = extract_base_domain d :=
  extract_base_domain_idem d

end CustomDomain
